import Mathlib

/-!
Verification of the FedDrone VisDrone partition-and-transform pipeline.

Shallow embedding of `src/datasets/prepare_VisDrone.py` and
`src/datasets/datasets_utils.py`:

* `convert_bbox` — corner-format to normalized center-format conversion
  (`datasets_utils.py`, lines 47-53), with Python floats modelled as `ℚ`;
* Python string splitting and number parsing (`line.strip().split(',')`,
  `float(...)`, `int(...)`), the per-line malformed/filtered/kept outcome,
  and the distribution-table updates of `process_split`
  (`prepare_VisDrone.py`, lines 68-105).  Text is modelled as `List Char`
  so that every operation is kernel-computable;
* a file-system model of the per-file copy/transform/skip logic
  (`prepare_VisDrone.py`, lines 49-110);
* the Mersenne-Twister generator behind `random.seed(42)` /
  `random.shuffle` and the `split_files` partitioner
  (`prepare_VisDrone.py`, lines 10-14).

Machine integers are modelled as `Nat` with explicit `% 2^32` reductions
where the CPython implementation works on 32-bit words.
-/

/- Batteries marks the `Rat` arithmetic operations `@[irreducible]`; the
embedding evaluates them in witnesses, so restore default reducibility
(this has no bearing on soundness, only on elaborator unfolding). -/
set_option allowUnsafeReducibility true
attribute [local semireducible] Rat.add Rat.mul Rat.sub Rat.inv Rat.ofScientific

/-! ## Bounding-box conversion (`datasets_utils.convert_bbox`) -/

/-- `datasets_utils.convert_bbox`: corner-format pixel coordinates to
normalized center-format coordinates.  Python floats are modelled as `ℚ`;
the inputs fed by `process_split` are exactly representable, and the claims
only use a 1e-5 tolerance, far above double rounding error. -/
def convert_bbox (bbox_left bbox_top bbox_right bbox_bottom : ℚ)
    (img_width img_height : ℚ) : ℚ × ℚ × ℚ × ℚ :=
  let x := (bbox_left + bbox_right) / 2 / img_width
  let y := (bbox_top + bbox_bottom) / 2 / img_height
  let w := (bbox_right - bbox_left) / img_width
  let h := (bbox_bottom - bbox_top) / img_height
  (x, y, w, h)

/-! ## Python string primitives

`process_split` uses `line.strip().split(',')` on annotation lines,
iterates a file's lines, and builds the label filename with
`img_file.replace('.jpg', '.txt')`.  We model these on `List Char` (the
character data of the Python `str`), which keeps everything
kernel-computable. -/

/-- Python `str.strip()` with no argument: remove whitespace from both
ends. -/
def pyStrip (cs : List Char) : List Char :=
  ((cs.dropWhile Char.isWhitespace).reverse.dropWhile Char.isWhitespace).reverse

/-- Python `str.split(sep)` for a one-character separator: split at every
occurrence, keeping empty fields (`''.split(',') == ['']`). -/
def pySplitOn (sep : Char) : List Char → List (List Char)
  | [] => [[]]
  | c :: rest =>
    if c = sep then [] :: pySplitOn sep rest
    else
      match pySplitOn sep rest with
      | [] => [[c]]
      | g :: gs => (c :: g) :: gs

/-- Does `cs` start with `pat`? -/
def startsWithChars : List Char → List Char → Bool
  | _, [] => true
  | [], _ :: _ => false
  | c :: cs, p :: ps => c = p && startsWithChars cs ps

/-- Python `str.replace(pat, rep)` for a nonempty pattern, fuel-based so
that it reduces in the kernel: every step consumes at least one input
character, so `fuel = length` always suffices. -/
def pyReplaceF (pat rep : List Char) : Nat → List Char → List Char
  | 0, s => s
  | _, [] => []
  | f + 1, c :: cs =>
    if startsWithChars (c :: cs) pat ∧ pat ≠ [] then
      rep ++ pyReplaceF pat rep f ((c :: cs).drop pat.length)
    else c :: pyReplaceF pat rep f cs

/-- Python `str.replace(pat, rep)` for a nonempty pattern: replace every
non-overlapping occurrence, scanning left to right. -/
def pyReplace (pat rep s : List Char) : List Char :=
  pyReplaceF pat rep s.length s

/-! ## Python numeric-literal parsing

`process_split` calls `float(parts[0..3])` and `int(parts[5])`,
`int(parts[6])` inside a `try` that turns `ValueError` into a skip.  We
model the accepting language of CPython `int()` / `float()` for finite
decimal literals: optional surrounding whitespace, optional sign, digit
runs that may contain single underscores between digits, and for `float`
an optional fractional part and exponent.  (`float` also accepts
`inf`/`infinity`/`nan`, which no finite annotation uses and which we do
not model; no claim depends on them.) -/

/-- A digit run as accepted inside a Python numeric literal: nonempty,
starts and ends with a digit, single underscores allowed between digits. -/
def digitRun : List Char → Bool
  | [] => false
  | [c] => c.isDigit
  | c :: '_' :: rest => c.isDigit && digitRun rest
  | c :: c2 :: rest => c.isDigit && digitRun (c2 :: rest)

/-- Numeric value of a digit run, ignoring underscores. -/
def digitsToNat (cs : List Char) : Nat :=
  cs.foldl (fun a c => if c = '_' then a else 10 * a + (c.toNat - 48)) 0

/-- Parse a digit run to its value. -/
def parseDigitRun (cs : List Char) : Option Nat :=
  if digitRun cs then some (digitsToNat cs) else none

/-- CPython `int(s)` on a string: optional whitespace, optional sign,
underscored digit run.  (`int` rejects fractional syntax such as `3.5`.) -/
def pyParseInt (s : List Char) : Option Int :=
  match pyStrip s with
  | '+' :: rest => (parseDigitRun rest).map (fun n => (n : Int))
  | '-' :: rest => (parseDigitRun rest).map (fun n => -(n : Int))
  | cs => (parseDigitRun cs).map (fun n => (n : Int))

/-- Split a character list at the first character satisfying `p`;
`none` if no such character occurs. -/
def splitOnceChar (p : Char → Bool) : List Char → Option (List Char × List Char)
  | [] => none
  | c :: rest =>
    if p c then some ([], rest)
    else (splitOnceChar p rest).map (fun pr => (c :: pr.1, pr.2))

/-- CPython `float(s)` on a finite decimal literal, valued in `ℚ`:
optional whitespace and sign, mantissa `digits[.digits]`, `.digits` or
`digits.`, optional `e`/`E` exponent with optional sign. -/
def pyParseFloat (s : List Char) : Option ℚ :=
  let cs0 := pyStrip s
  let sign : ℚ := match cs0 with
    | '-' :: _ => -1
    | _ => 1
  let cs1 : List Char := match cs0 with
    | '+' :: r => r
    | '-' :: r => r
    | _ => cs0
  let mantExp : List Char × Option (List Char) :=
    match splitOnceChar (fun c => c = 'e' || c = 'E') cs1 with
    | some (m, e) => (m, some e)
    | none => (cs1, none)
  let exVal : Option Int :=
    match mantExp.2 with
    | none => some 0
    | some ('+' :: r) => (parseDigitRun r).map (fun n => (n : Int))
    | some ('-' :: r) => (parseDigitRun r).map (fun n => -(n : Int))
    | some r => (parseDigitRun r).map (fun n => (n : Int))
  let mantVal : Option ℚ :=
    match splitOnceChar (fun c => c = '.') mantExp.1 with
    | none => (parseDigitRun mantExp.1).map (fun n => (n : ℚ))
    | some (ip, fp) =>
      if (ip.isEmpty || digitRun ip) && (fp.isEmpty || digitRun fp)
          && !(ip.isEmpty && fp.isEmpty) then
        some ((digitsToNat ip : ℚ)
          + (digitsToNat fp : ℚ) / 10 ^ (fp.filter (fun c => c ≠ '_')).length)
      else none
  match mantVal, exVal with
  | some m, some e => some (sign * m * (10 : ℚ) ^ e)
  | _, _ => none

/-! ## Per-line outcome of the annotation transformer

`process_split`, lines 69-105: each line of an annotation file is either
dropped at the parse stage (`continue` at lines 72 and 83), dropped by the
status/class filter (`continue` at line 87), or converted, written and
counted. -/

/-- Outcome of one annotation line. `kept cls x y w h` records the parsed
1-based class id and the converted coordinates; the written record is
`(cls - 1, x, y, w, h)`. -/
inductive LineOutcome where
  | malformed
  | filtered
  | kept (cls : Int) (x y w h : ℚ)
deriving DecidableEq

/-- The parse stage of `process_split` (lines 70-83): split the stripped
line on commas, require at least 8 fields, and parse fields 0-3 as floats
and fields 5-6 as integers.  `none` exactly when the code hits one of the
two `continue` statements of the parse stage. -/
def parseFields (line : List Char) : Option (ℚ × ℚ × ℚ × ℚ × Int × Int) :=
  let parts := pySplitOn ',' (pyStrip line)
  if parts.length < 8 then none
  else
    match pyParseFloat (parts.getD 0 []), pyParseFloat (parts.getD 1 []),
        pyParseFloat (parts.getD 2 []), pyParseFloat (parts.getD 3 []),
        pyParseInt (parts.getD 5 []), pyParseInt (parts.getD 6 []) with
    | some xMin, some yMin, some w, some h, some clsId, some status =>
      some (xMin, yMin, w, h, clsId, status)
    | _, _, _, _, _, _ => none

/-- Full per-line outcome (`process_split` lines 70-100): parse, filter on
`status == 0 or not (1 <= cls_id <= 10)`, then convert with the hard-coded
1920×1080 resolution. -/
def lineOutcome (line : List Char) : LineOutcome :=
  match parseFields line with
  | none => .malformed
  | some (xMin, yMin, w, h, clsId, status) =>
    if status = 0 ∨ ¬(1 ≤ clsId ∧ clsId ≤ 10) then .filtered
    else
      let r := convert_bbox xMin yMin (xMin + w) (yMin + h) 1920 1080
      .kept clsId r.1 r.2.1 r.2.2.1 r.2.2.2

/-- Does the outcome survive to the output file and the statistics? -/
def LineOutcome.isKept : LineOutcome → Bool
  | .kept _ _ _ _ _ => true
  | _ => false

/-! ## Distribution table (`datasets_utils.get_distribution_dataframe`) -/

/-- The pandas `DataFrame` of `get_distribution_dataframe`: the row axis
(`index`), the column axis, and the integer cells, addressed by row and
column label as `dist_df.loc[row, col]` does. -/
structure DistDF where
  index : List String
  columns : List String
  cells : String → String → Nat

/-- `datasets_utils.get_distribution_dataframe`: rows are `'Samples'`
followed by the class names of the YAML resource, columns are `server`
and `client1..clientN`, all cells zero.  The YAML name list is an external
input, passed here as `names`. -/
def get_distribution_dataframe (names : List String) (nclients : Nat) : DistDF :=
  { index := "Samples" :: names
    columns := "server" :: (List.range nclients).map (fun k => "client" ++ toString (k + 1))
    cells := fun _ _ => 0 }

/-- `df.loc[row, col] += 1`. -/
def bumpCell (f : String → String → Nat) (row col : String) : String → String → Nat :=
  fun r c => if r = row ∧ c = col then f r c + 1 else f r c

/-- The statistics update of `process_split` lines 102-105, applied to one
line outcome: a kept line with class id `cls` increments the cell at row
`dist_df.index[cls]` and the cell at row `'Samples'`, both in the
destination bucket's column; other outcomes touch nothing. -/
def updateTable (df : DistDF) (dest : String) : LineOutcome → DistDF
  | .kept cls _ _ _ _ =>
    let className := df.index.getD cls.toNat ""
    { df with cells := bumpCell (bumpCell df.cells className dest) "Samples" dest }
  | _ => df

/-- The annotation-file loop of `process_split` lines 69-105: process the
lines in order, threading the table, and collect the records written to
the destination label file (class id shifted to 0-based, converted
coordinates). -/
def processLines (dest : String) (lines : List (List Char)) (df : DistDF) :
    DistDF × List (Int × ℚ × ℚ × ℚ × ℚ) :=
  match lines with
  | [] => (df, [])
  | l :: rest =>
    match lineOutcome l with
    | .kept cls x y w h =>
      let step := processLines dest rest (updateTable df dest (.kept cls x y w h))
      (step.1, (cls - 1, x, y, w, h) :: step.2)
    | _ => processLines dest rest df

/-- One subset-processing pass over a sequence of (destination bucket,
annotation lines) jobs, threading the distribution table as the
`destination`/`img_file` loops of `process_split` do. -/
def processPass (steps : List (String × List (List Char))) (df : DistDF) : DistDF :=
  steps.foldl (fun d s => (processLines s.1 s.2 d).1) df

/-! ## File-system model and the per-file loop of `process_split`

`process_split` lines 49-110: for each image file of a bucket, copy the
image, then open the paired annotation file and write the converted label
file; any exception inside the `try` block is caught at line 108, logged,
and the loop continues with the next file.  The file system is a partial
map from path to text content (as `List Char`); `shutil.copy` and
`open(.., 'r')` raise `FileNotFoundError` when the source path is
absent. -/

/-- A file system: path to content. -/
def FS : Type := String → Option (List Char)

/-- Write (create or overwrite) one file. -/
def fsWrite (fs : FS) (path : String) (content : List Char) : FS :=
  fun q => if q = path then some content else fs q

/-- `os.path.join` for the relative paths the script builds. -/
def pjoin (a b : String) : String := a ++ "/" ++ b

/-- Round half-to-even to an integer, as CPython `format` does. -/
def roundHalfEven (q : ℚ) : Int :=
  let f := ⌊q⌋
  let r := q - f
  if r < 1/2 then f
  else if 1/2 < r then f + 1
  else if 2 ∣ f then f else f + 1

/-- CPython `f"{x:.6f}"` on a rational value: fixed six decimal places,
rounding half to even. -/
def format6 (q : ℚ) : String :=
  let n := roundHalfEven (q * 1000000)
  let sign := if n < 0 ∨ (n = 0 ∧ q < 0) then "-" else ""
  let m := n.natAbs
  sign ++ toString (m / 1000000) ++ "."
    ++ (toString (1000000 + m % 1000000)).drop 1

/-- One written label line, `process_split` line 100:
`f"{cls_id - 1} {x:.6f} {y:.6f} {bw:.6f} {bh:.6f}\n"`. -/
def renderRecord (rec : Int × ℚ × ℚ × ℚ × ℚ) : String :=
  toString rec.1 ++ " " ++ format6 rec.2.1 ++ " " ++ format6 rec.2.2.1 ++ " "
    ++ format6 rec.2.2.2.1 ++ " " ++ format6 rec.2.2.2.2 ++ "\n"

/-- Content of the destination label file. -/
def renderRecords (recs : List (Int × ℚ × ℚ × ℚ × ℚ)) : List Char :=
  (String.join (recs.map renderRecord)).toList

/-- `for line in src` over a text file's content; iteration on a trailing
newline yields no extra line in Python, but the extra `[]` produced by
the split is harmless because `process_split` drops it as having fewer
than 8 comma-separated fields. -/
def pyLines (content : List Char) : List (List Char) := pySplitOn '\n' content

/-- The body of the per-file loop of `process_split` (lines 49-110) for
one image file: build the four paths, copy the image, transform the
annotation file, update the table.  Returns the file system, the table
and whether the file completed (i.e. `pbar.update(1)` ran; `false` means
the exception handler at line 108 caught a `FileNotFoundError`). -/
def processOneFile (imgDir annDir dstDir dest : String) (df : DistDF)
    (fs : FS) (imgFile : String) : FS × DistDF × Bool :=
  let imgSrc := pjoin imgDir imgFile
  let annName := String.mk (pyReplace ".jpg".toList ".txt".toList imgFile.toList)
  let annSrc := pjoin annDir annName
  let imgDst := pjoin (pjoin (pjoin dstDir dest) "images") imgFile
  let labelDst := pjoin (pjoin (pjoin dstDir dest) "labels") annName
  match fs imgSrc with
  | none => (fs, df, false)
  | some imgContent =>
    let fs1 := fsWrite fs imgDst imgContent
    match fs1 annSrc with
    | none => (fs1, df, false)
    | some annContent =>
      let step := processLines dest (pyLines annContent) df
      (fsWrite fs1 labelDst (renderRecords step.2), step.1, true)

/-- The inner `for img_file in files` loop: per-file failures are caught
and the loop continues with the next file. -/
def processFiles (imgDir annDir dstDir dest : String) (files : List String)
    (fs : FS) (df : DistDF) : FS × DistDF :=
  files.foldl
    (fun st f =>
      let r := processOneFile imgDir annDir dstDir dest st.2 st.1 f
      (r.1, r.2.1))
    (fs, df)

/-! ## `random.seed(42)` / `random.shuffle`: the Mersenne Twister

`split_files` (lines 10-14) seeds CPython's global `random.Random` with 42
and shuffles the file list in place.  We embed the MT19937 generator
exactly as `_randommodule.c` implements it (`init_genrand`,
`init_by_array`, the twist, tempering), `random.seed` on a nonnegative
integer (key = base-2^32 digits), `getrandbits`, `_randbelow` (rejection
sampling, here with explicit fuel since the loop has no termination
bound), and `random.shuffle` (Fisher-Yates from the top index down).
All words are `Nat` reduced mod `2^32`. -/

/-- `List.foldl`, with the accumulator forced at every step: the
self-comparison in the guard makes kernel reduction evaluate the
accumulated state eagerly instead of building a deep thunk chain, so the
generator below evaluates with a shallow stack.  The `else` branch is
unreachable. -/
def foldlForce {α : Type} [DecidableEq α] (f : α → Nat → α) : List Nat → α → α
  | [], a => a
  | x :: xs, a => if a = a then foldlForce f xs (f a x) else a

/-- `foldlForce` is `List.foldl`. -/
theorem foldlForce_eq_foldl {α : Type} [DecidableEq α] (f : α → Nat → α) :
    ∀ (l : List Nat) (a : α), foldlForce f l a = List.foldl f a l := by
  intro l
  induction l with
  | nil => intro a; rfl
  | cons x xs ih =>
    intro a
    simp [foldlForce, ih]

/-- Read 32-bit word `i` of a state packed as a base-`2^32` little-endian
natural number.  The packed representation lets the kernel evaluate the
generator with big-integer arithmetic. -/
def getW (s i : Nat) : Nat := (s >>> (32 * i)) &&& 4294967295

/-- Write 32-bit word `i` of a packed state. -/
def setW (s i v : Nat) : Nat := s - (getW s i <<< (32 * i)) + (v <<< (32 * i))

/-- `init_genrand(s)`: the seeded 624-word state (packed). -/
def initGenrand (s : Nat) : Nat :=
  let s0 := s % 4294967296
  (foldlForce
    (fun (st : Nat × Nat) i =>
      let v := (1812433253 * (st.2 ^^^ (st.2 >>> 30)) + i) % 4294967296
      (setW st.1 i v, v))
    (List.range' 1 623) (s0, s0)).1

/-- One iteration of the first `init_by_array` loop; state is
`(mt, i, j)`. -/
def ibaStep1 (key : List Nat) (klen : Nat)
    (st : Nat × Nat × Nat) (_k : Nat) : Nat × Nat × Nat :=
  let mt := st.1
  let i := st.2.1
  let j := st.2.2
  let prev := getW mt (i - 1)
  let x := getW mt i ^^^ ((prev ^^^ (prev >>> 30)) * 1664525 % 4294967296)
  let v := (x + key.getD j 0 + j) % 4294967296
  let mt1 := setW mt i v
  let p := if 624 ≤ i + 1 then (setW mt1 0 (getW mt1 623), 1) else (mt1, i + 1)
  (p.1, p.2, if klen ≤ j + 1 then 0 else j + 1)

/-- One iteration of the second `init_by_array` loop; state is `(mt, i)`.
The C code subtracts `i` on a 32-bit word, hence the `+ 2^32` before the
subtraction. -/
def ibaStep2 (st : Nat × Nat) (_k : Nat) : Nat × Nat :=
  let mt := st.1
  let i := st.2
  let prev := getW mt (i - 1)
  let x := getW mt i ^^^ ((prev ^^^ (prev >>> 30)) * 1566083941 % 4294967296)
  let v := (x + 4294967296 - i) % 4294967296
  let mt1 := setW mt i v
  if 624 ≤ i + 1 then (setW mt1 0 (getW mt1 623), 1) else (mt1, i + 1)

/-- `init_by_array(key)`. -/
def initByArray (key : List Nat) : Nat :=
  let klen := key.length
  let st1 := foldlForce (ibaStep1 key klen) (List.range (max 624 klen))
    (initGenrand 19650218, 1, 0)
  let st2 := foldlForce ibaStep2 (List.range 623) (st1.1, st1.2.1)
  setW st2.1 0 2147483648

/-- Little-endian base-2^32 digits of `n`, with explicit fuel (any
`fuel > log_4294967296 n` suffices; `n + 1` always does). -/
def natToKeyAux : Nat → Nat → List Nat
  | 0, _ => []
  | w + 1, n =>
    if n < 4294967296 then [n]
    else n % 4294967296 :: natToKeyAux w (n / 4294967296)

/-- `random.seed(n)` on a nonnegative int: the key is the little-endian
base-2^32 digit list of `n`. -/
def natToKey (n : Nat) : List Nat := natToKeyAux (n + 1) n

/-- One in-place update of the MT19937 twist at position `kk`; later
positions read the values already rewritten by earlier ones, exactly as
the three C loops do. -/
def twistStep (mt : Nat) (kk : Nat) : Nat :=
  let y := (getW mt kk &&& 2147483648) ||| (getW mt ((kk + 1) % 624) &&& 2147483647)
  let mag := if y % 2 = 1 then 2567483615 else 0
  setW mt kk (getW mt ((kk + 397) % 624) ^^^ (y >>> 1) ^^^ mag)

/-- The full MT19937 state twist (`genrand_uint32`'s regeneration). -/
def twist (mt : Nat) : Nat := foldlForce twistStep (List.range 624) mt

/-- MT19937 output tempering. -/
def temper (y0 : Nat) : Nat :=
  let y1 := y0 ^^^ (y0 >>> 11)
  let y2 := y1 ^^^ ((y1 <<< 7) &&& 2636928640)
  let y3 := y2 ^^^ ((y2 <<< 15) &&& 4022730752)
  y3 ^^^ (y3 >>> 18)

/-- The generator state: 624 words and the output index `mti`. -/
structure MTState where
  mt : Nat
  mti : Nat

/-- `random.seed(n)`: CPython leaves `mti = 624`, so the first output
triggers a twist. -/
def pySeedNat (n : Nat) : MTState := ⟨initByArray (natToKey n), 624⟩

/-- `genrand_uint32`. -/
def genrandUint32 (st : MTState) : Nat × MTState :=
  if 624 ≤ st.mti then
    let mt1 := twist st.mt
    (temper (getW mt1 0), ⟨mt1, 1⟩)
  else
    (temper (getW st.mt st.mti), ⟨st.mt, st.mti + 1⟩)

/-- `getrandbits(k)` for `0 < k ≤ 32`: the top `k` bits of one output. -/
def getrandbits (k : Nat) (st : MTState) : Nat × MTState :=
  let r := genrandUint32 st
  (r.1 >>> (32 - k), r.2)

/-- Python `int.bit_length()`, with fuel (`bit_length n ≤ n`, so fuel
`n` suffices). -/
def bitLenAux : Nat → Nat → Nat
  | 0, _ => 0
  | f + 1, n => if n = 0 then 0 else bitLenAux f (n / 2) + 1

/-- Python `int.bit_length()`. -/
def bitLen (n : Nat) : Nat := bitLenAux n n

/-- The rejection loop of `Random._randbelow_with_getrandbits`, with
explicit fuel (the CPython loop has no a-priori bound). -/
def randbelowAux (k n : Nat) : Nat → MTState → Option (Nat × MTState)
  | 0, _ => none
  | fuel + 1, st =>
    let r := getrandbits k st
    if r.1 < n then some r else randbelowAux k n fuel r.2

/-- `Random._randbelow(n)`: draw `bit_length n` bits, retry while the
draw is `≥ n`. -/
def randbelow (fuel n : Nat) (st : MTState) : Option (Nat × MTState) :=
  randbelowAux (bitLen n) n fuel st

/-- Swap two positions of a list (`x[i], x[j] = x[j], x[i]`). -/
def swapIdx (l : List α) (i j : Nat) : List α :=
  match l[i]?, l[j]? with
  | some a, some b => (l.set i b).set j a
  | _, _ => l

/-- The loop of `random.shuffle`:
`for i in reversed(range(1, len(x))): j = randbelow(i+1); swap i j`.
The first argument of the recursion is the current value of `i`. -/
def shuffleAux (fuel : Nat) : Nat → List α → MTState → Option (List α × MTState)
  | 0, l, st => some (l, st)
  | i + 1, l, st =>
    match randbelow fuel (i + 2) st with
    | none => none
    | some (j, st1) => shuffleAux fuel i (swapIdx l (i + 1) j) st1

/-- `random.shuffle(x)`: returns the final (in-place mutated) list and
the advanced generator state. -/
def pyShuffle (fuel : Nat) (l : List α) (st : MTState) : Option (List α × MTState) :=
  shuffleAux fuel (l.length - 1) l st

/-- Fuel-based core of the Python slice `l[0::n]`: take the head, then
skip `n - 1` elements.  Each step consumes at least one element, so
`fuel = length` always suffices. -/
def everyNthF (n : Nat) : Nat → List α → List α
  | 0, _ => []
  | _, [] => []
  | f + 1, x :: xs => x :: everyNthF n f (xs.drop (n - 1))

/-- The Python slice `l[0::n]`: every `n`-th element starting at the
head. -/
def everyNth (n : Nat) (l : List α) : List α := everyNthF n l.length l

/-- `split_files(files, nclients)` (`prepare_VisDrone.py` lines 10-14):
seed the global generator with 42 (discarding the ambient state `amb`),
shuffle the caller's list in place, and return the dict
`{f'client\x7bi+1\x7d': files[i::nclients] for i in range(nclients)}`
together with the final contents of the caller's list.  `fuel` bounds the
rejection loops of `_randbelow`. -/
def split_files (fuel : Nat) (amb : MTState) (files : List α) (nclients : Nat) :
    Option (List α × List (String × List α)) :=
  match pyShuffle fuel files (pySeedNat 42) with
  | none => none
  | some (files1, _) =>
    some (files1,
      (List.range nclients).map
        (fun i => ("client" ++ toString (i + 1), everyNth nclients (files1.drop i))))

/-- Line 42 of `process_split`:
`split_files(img_files, nclients) if is_train else {'server': img_files}`.
Returns the final contents of the caller's list and the bucket map. -/
def partitionAssignment (fuel : Nat) (amb : MTState) (files : List α)
    (nclients : Nat) (isTrain : Bool) : Option (List α × List (String × List α)) :=
  if isTrain then split_files fuel amb files nclients
  else some (files, [("server", files)])

/-! ## Counting helpers used by the claim statements -/

/-- Number of surviving (written and counted) lines among `lines`. -/
def keptCount (lines : List (List Char)) : Nat :=
  lines.countP (fun l => (lineOutcome l).isKept)

/-- The class-name rows bumped by the surviving lines of `lines`, in
order, where `idx` is the table's row axis (`dist_df.index`). -/
def keptRowNames (idx : List String) (lines : List (List Char)) : List String :=
  lines.filterMap (fun l =>
    match lineOutcome l with
    | .kept cls _ _ _ _ => some (idx.getD cls.toNat "")
    | _ => none)

/-- Modelled from the spec: the malformed-line rule of §4.2 names "the
five required numeric fields".  Reading those five per the §3 data-model
order as `bbox_left`, `bbox_top`, `width`, `height` (floats) and
`class_id` (int) — the fields the output record needs — a line is
malformed when it has fewer than 8 comma-separated fields or one of those
five fails to parse.  (The code additionally parses the status flag,
field 6, so this predicate and the code disagree; see the C5 theorems.) -/
def malformedSpecFive (line : List Char) : Bool :=
  let parts := pySplitOn ',' (pyStrip line)
  decide (parts.length < 8) ||
    (pyParseFloat (parts.getD 0 [])).isNone ||
    (pyParseFloat (parts.getD 1 [])).isNone ||
    (pyParseFloat (parts.getD 2 [])).isNone ||
    (pyParseFloat (parts.getD 3 [])).isNone ||
    (pyParseInt (parts.getD 5 [])).isNone

/-! ## Helper lemmas: per-line outcomes -/

/-- A line is dropped at the parse stage exactly when `parseFields`
fails. -/
theorem lineOutcome_malformed_iff (line : List Char) :
    lineOutcome line = .malformed ↔ parseFields line = none := by
  unfold lineOutcome
  rcases hp : parseFields line with _ | ⟨xm, ym, w, h, cls, status⟩
  · simp
  · simp only [hp]
    constructor
    · intro hk
      split at hk <;> simp at hk
    · intro hk
      simp at hk

/-- A kept line has a class id in the closed range `[1, 10]`. -/
theorem lineOutcome_kept_range {line : List Char} {cls : Int} {x y w h : ℚ}
    (hk : lineOutcome line = .kept cls x y w h) : 1 ≤ cls ∧ cls ≤ 10 := by
  unfold lineOutcome at hk
  rcases hp : parseFields line with _ | ⟨xm, ym, w1, h1, cls1, status1⟩ <;>
    rw [hp] at hk <;> dsimp only at hk
  · simp at hk
  · by_cases hc : status1 = 0 ∨ ¬(1 ≤ cls1 ∧ cls1 ≤ 10)
    · rw [if_pos hc] at hk
      exact absurd hk (by simp)
    · rw [if_neg hc] at hk
      injection hk with h1 h2 h3 h4 h5
      subst h1
      omega

/-- Skipped lines leave the fold of `processLines` unchanged. -/
theorem processLines_cons_not_kept {line : List Char} (dest : String)
    (rest : List (List Char)) (df : DistDF)
    (hnk : (lineOutcome line).isKept = false) :
    processLines dest (line :: rest) df = processLines dest rest df := by
  cases ho : lineOutcome line with
  | malformed => conv_lhs => rw [processLines, ho]
  | filtered => conv_lhs => rw [processLines, ho]
  | kept cls x y w h => rw [ho] at hnk; simp [LineOutcome.isKept] at hnk

/-- Kept lines step the fold of `processLines` through `updateTable` and
prepend the written record. -/
theorem processLines_cons_kept {line : List Char} (dest : String)
    (rest : List (List Char)) (df : DistDF) {cls : Int} {x y w h : ℚ}
    (ho : lineOutcome line = .kept cls x y w h) :
    processLines dest (line :: rest) df =
      ((processLines dest rest (updateTable df dest (.kept cls x y w h))).1,
        (cls - 1, x, y, w, h) ::
          (processLines dest rest (updateTable df dest (.kept cls x y w h))).2) := by
  conv_lhs => rw [processLines, ho]

/-! ## C3: conversion correctness on the reference box -/

/-- C3: for the input box (left=100, top=200, width=300, height=150)
converted at the fixed 1920×1080 resolution — i.e. with
`right = left + width` and `bottom = top + height` as `process_split`
passes them — `convert_bbox` returns normalized center-format values
within `1e-5` of `x=0.130208`, `y=0.254630`, `w=0.156250`,
`h=0.138889`. -/
theorem convert_bbox_reference_box :
    |(convert_bbox 100 200 (100 + 300) (200 + 150) 1920 1080).1
        - 130208 / 1000000| ≤ 1 / 100000 ∧
    |(convert_bbox 100 200 (100 + 300) (200 + 150) 1920 1080).2.1
        - 254630 / 1000000| ≤ 1 / 100000 ∧
    |(convert_bbox 100 200 (100 + 300) (200 + 150) 1920 1080).2.2.1
        - 156250 / 1000000| ≤ 1 / 100000 ∧
    |(convert_bbox 100 200 (100 + 300) (200 + 150) 1920 1080).2.2.2
        - 138889 / 1000000| ≤ 1 / 100000 := by
  refine ⟨?_, ?_, ?_, ?_⟩ <;> · rw [convert_bbox]; rw [abs_le]; constructor <;> norm_num

/-! ## C2: the status/class filter -/

/-- C2: a successfully parsed line whose status flag is `0`, or whose
class id lies outside `[1, 10]`, is filtered: `process_split` writes
nothing for it and leaves the distribution table untouched, whatever the
other field values are. -/
theorem status_or_class_filter_skips (line : List Char) (xm ym w h : ℚ)
    (cls status : Int) (dest : String) (df : DistDF) (rest : List (List Char))
    (hp : parseFields line = some (xm, ym, w, h, cls, status))
    (hf : status = 0 ∨ cls < 1 ∨ 10 < cls) :
    lineOutcome line = .filtered ∧
      processLines dest (line :: rest) df = processLines dest rest df := by
  have ho : lineOutcome line = .filtered := by
    unfold lineOutcome
    rw [hp]
    dsimp only
    rw [if_pos (by omega)]
  exact ⟨ho, processLines_cons_not_kept dest rest df (by rw [ho]; rfl)⟩

/-- Witness for C2: the line `"0,0,10,10,0,1,0,0"` (status flag 0, class
id 1) is filtered and contributes nothing. -/
theorem status_or_class_filter_skips_witness :
    lineOutcome "0,0,10,10,0,1,0,0".toList = .filtered ∧
      processLines "server" ["0,0,10,10,0,1,0,0".toList]
          (get_distribution_dataframe ["c1"] 1) =
        processLines "server" [] (get_distribution_dataframe ["c1"] 1) :=
  status_or_class_filter_skips "0,0,10,10,0,1,0,0".toList 0 0 10 10 1 0 "server"
    (get_distribution_dataframe ["c1"] 1) [] (by decide) (by decide)

/-! ## C5: the malformed-line rule -/

/-- C5 (amended): a line is dropped as malformed, silently, if and only
if it has fewer than 8 comma-separated fields or one of the SIX parsed
numeric fields — `bbox_left`, `bbox_top`, `width`, `height` as floats and
class id, status flag as ints — fails to parse; every other line reaches
the status/class filtering step.  (The claim says "five required numeric
fields"; the code parses six.) -/
theorem malformed_iff_six_field_parse (line : List Char) :
    lineOutcome line = .malformed ↔
      ((pySplitOn ',' (pyStrip line)).length < 8 ∨
        pyParseFloat ((pySplitOn ',' (pyStrip line)).getD 0 []) = none ∨
        pyParseFloat ((pySplitOn ',' (pyStrip line)).getD 1 []) = none ∨
        pyParseFloat ((pySplitOn ',' (pyStrip line)).getD 2 []) = none ∨
        pyParseFloat ((pySplitOn ',' (pyStrip line)).getD 3 []) = none ∨
        pyParseInt ((pySplitOn ',' (pyStrip line)).getD 5 []) = none ∨
        pyParseInt ((pySplitOn ',' (pyStrip line)).getD 6 []) = none) := by
  rw [lineOutcome_malformed_iff]
  unfold parseFields
  by_cases hlen : (pySplitOn ',' (pyStrip line)).length < 8
  · simp [hlen]
  · rw [if_neg hlen]
    rcases h0 : pyParseFloat ((pySplitOn ',' (pyStrip line)).getD 0 []) with _ | v0 <;>
    rcases h1 : pyParseFloat ((pySplitOn ',' (pyStrip line)).getD 1 []) with _ | v1 <;>
    rcases h2 : pyParseFloat ((pySplitOn ',' (pyStrip line)).getD 2 []) with _ | v2 <;>
    rcases h3 : pyParseFloat ((pySplitOn ',' (pyStrip line)).getD 3 []) with _ | v3 <;>
    rcases h5 : pyParseInt ((pySplitOn ',' (pyStrip line)).getD 5 []) with _ | v5 <;>
    rcases h6 : pyParseInt ((pySplitOn ',' (pyStrip line)).getD 6 []) with _ | v6 <;>
    simp [hlen]

/-- C5 counterexample: the 8-field line `"1,2,3,4,0,5,x,0"` is fine by
the five-field reading of the malformed rule (bbox fields and class id
all parse), yet the code drops it as malformed, because the code also
requires the status flag (field 6, here `"x"`) to parse as an int. -/
theorem malformed_five_field_rule_cx :
    malformedSpecFive "1,2,3,4,0,5,x,0".toList = false ∧
      lineOutcome "1,2,3,4,0,5,x,0".toList = .malformed :=
  ⟨by decide, by decide⟩

/-! ## Helper lemmas: the distribution table -/

/-- Table updates never change the row axis. -/
theorem updateTable_index (df : DistDF) (dest : String) (o : LineOutcome) :
    (updateTable df dest o).index = df.index := by
  cases o <;> rfl

/-- Cell arithmetic of the update for a kept line: the class-name row and
the `Samples` row of the destination column each gain one. -/
theorem updateTable_kept_cells (df : DistDF) (dest : String) (cls : Int)
    (x y w h : ℚ) (r c : String) :
    (updateTable df dest (.kept cls x y w h)).cells r c =
      df.cells r c + (if r = df.index.getD cls.toNat "" ∧ c = dest then 1 else 0)
        + (if r = "Samples" ∧ c = dest then 1 else 0) := by
  simp only [updateTable, bumpCell]
  split_ifs <;> omega

/-- The class-name rows of surviving lines: a kept head contributes its
row name. -/
theorem keptRowNames_cons_kept {line : List Char} {cls : Int} {x y w h : ℚ}
    (idx : List String) (rest : List (List Char))
    (ho : lineOutcome line = .kept cls x y w h) :
    keptRowNames idx (line :: rest) = idx.getD cls.toNat "" :: keptRowNames idx rest := by
  simp [keptRowNames, ho]

/-- The class-name rows of surviving lines: a skipped head contributes
nothing. -/
theorem keptRowNames_cons_not_kept {line : List Char} (idx : List String)
    (rest : List (List Char)) (hnk : (lineOutcome line).isKept = false) :
    keptRowNames idx (line :: rest) = keptRowNames idx rest := by
  cases ho : lineOutcome line with
  | malformed => simp [keptRowNames, ho]
  | filtered => simp [keptRowNames, ho]
  | kept cls x y w h => rw [ho] at hnk; simp [LineOutcome.isKept] at hnk

/-- `keptCount` over a cons with a skipped head. -/
theorem keptCount_cons_not_kept {line : List Char} (rest : List (List Char))
    (hnk : (lineOutcome line).isKept = false) :
    keptCount (line :: rest) = keptCount rest := by
  simp [keptCount, List.countP_cons, hnk]

/-- `keptCount` over a cons with a kept head. -/
theorem keptCount_cons_kept {line : List Char} {cls : Int} {x y w h : ℚ}
    (rest : List (List Char)) (ho : lineOutcome line = .kept cls x y w h) :
    keptCount (line :: rest) = keptCount rest + 1 := by
  simp [keptCount, List.countP_cons, ho, LineOutcome.isKept]

/-! ## C4: what the code actually counts -/

/-- C4 (amended): during one annotation file's processing, every
surviving line increments the `Samples` cell of the destination column by
one — so the `Samples` cell grows by the number of surviving lines, not
by one per contributing file — and every surviving line also increments
its class-name cell of that column by one. -/
theorem samples_increment_per_line (names : List String) (dest : String)
    (lines : List (List Char)) (df : DistDF) (nm : String)
    (hidx : df.index = "Samples" :: names) (hs : "Samples" ∉ names)
    (hlen : 10 ≤ names.length) (hnm : nm ∈ names) :
    ((processLines dest lines df).1.cells "Samples" dest
        = df.cells "Samples" dest + keptCount lines) ∧
    ((processLines dest lines df).1.cells nm dest
        = df.cells nm dest + (keptRowNames df.index lines).count nm) := by
  induction lines generalizing df with
  | nil => simp [processLines, keptCount, keptRowNames]
  | cons line rest ih =>
    cases ho : lineOutcome line with
    | malformed =>
      rw [processLines_cons_not_kept dest rest df (by rw [ho]; rfl),
        keptCount_cons_not_kept rest (by rw [ho]; rfl),
        keptRowNames_cons_not_kept df.index rest (by rw [ho]; rfl)]
      exact ih df hidx
    | filtered =>
      rw [processLines_cons_not_kept dest rest df (by rw [ho]; rfl),
        keptCount_cons_not_kept rest (by rw [ho]; rfl),
        keptRowNames_cons_not_kept df.index rest (by rw [ho]; rfl)]
      exact ih df hidx
    | kept cls x y w h =>
      have hrange := lineOutcome_kept_range ho
      have htn : cls.toNat - 1 < names.length := by omega
      have hcn : df.index.getD cls.toNat "" = names.getD (cls.toNat - 1) "" := by
        rw [hidx]
        obtain ⟨k, hk⟩ : ∃ k, cls.toNat = k + 1 := ⟨cls.toNat - 1, by omega⟩
        simp [hk]
      have hclassmem : names.getD (cls.toNat - 1) "" ∈ names := by
        rw [List.getD_eq_getElem names "" htn]
        exact List.getElem_mem htn
      have hclassne : names.getD (cls.toNat - 1) "" ≠ "Samples" :=
        fun hEq => hs (hEq ▸ hclassmem)
      rw [processLines_cons_kept dest rest df ho]
      dsimp only
      have hidx1 : (updateTable df dest (.kept cls x y w h)).index = "Samples" :: names := by
        rw [updateTable_index, hidx]
      have ihs := ih (updateTable df dest (.kept cls x y w h)) hidx1
      constructor
      · rw [ihs.1, updateTable_kept_cells, hcn, keptCount_cons_kept rest ho]
        rw [if_neg (fun hq => hclassne hq.1.symm), if_pos ⟨rfl, rfl⟩]
        omega
      · rw [ihs.2, updateTable_index, keptRowNames_cons_kept df.index rest ho,
          updateTable_kept_cells, hcn]
        rw [List.count_cons]
        have hnmne : ¬(nm = "Samples" ∧ dest = dest) :=
          fun hq => hs (hq.1 ▸ hnm)
        rw [if_neg hnmne]
        by_cases hq : nm = names.getD (cls.toNat - 1) ""
        · rw [if_pos (And.intro hq rfl), if_pos (beq_iff_eq.mpr hq.symm)]
          omega
        · rw [if_neg (fun hc => hq hc.1), if_neg (fun hc => hq (beq_iff_eq.mp hc).symm)]
          omega

/-- Witness for C4 (amended): one file whose two lines are a surviving
class-1 line and a filtered line; the `Samples` cell and the `n1` cell
each end at the number of surviving lines. -/
theorem samples_increment_per_line_witness :
    ((processLines "server"
        ["0,0,10,10,0,1,1,0".toList, "0,0,10,10,0,3,0,0".toList]
        (get_distribution_dataframe
          ["n1", "n2", "n3", "n4", "n5", "n6", "n7", "n8", "n9", "n10"] 2)).1.cells
          "Samples" "server"
      = (get_distribution_dataframe
          ["n1", "n2", "n3", "n4", "n5", "n6", "n7", "n8", "n9", "n10"] 2).cells
          "Samples" "server"
        + keptCount ["0,0,10,10,0,1,1,0".toList, "0,0,10,10,0,3,0,0".toList]) ∧
    ((processLines "server"
        ["0,0,10,10,0,1,1,0".toList, "0,0,10,10,0,3,0,0".toList]
        (get_distribution_dataframe
          ["n1", "n2", "n3", "n4", "n5", "n6", "n7", "n8", "n9", "n10"] 2)).1.cells
          "n1" "server"
      = (get_distribution_dataframe
          ["n1", "n2", "n3", "n4", "n5", "n6", "n7", "n8", "n9", "n10"] 2).cells
          "n1" "server"
        + (keptRowNames
            (get_distribution_dataframe
              ["n1", "n2", "n3", "n4", "n5", "n6", "n7", "n8", "n9", "n10"] 2).index
            ["0,0,10,10,0,1,1,0".toList, "0,0,10,10,0,3,0,0".toList]).count "n1") :=
  samples_increment_per_line
    ["n1", "n2", "n3", "n4", "n5", "n6", "n7", "n8", "n9", "n10"] "server"
    ["0,0,10,10,0,1,1,0".toList, "0,0,10,10,0,3,0,0".toList]
    (get_distribution_dataframe
      ["n1", "n2", "n3", "n4", "n5", "n6", "n7", "n8", "n9", "n10"] 2)
    "n1" rfl (by decide) (by decide) (by decide)

/-- C4 counterexample: a single annotation file with two surviving lines.
The claim says the `Samples` cell of its bucket is incremented exactly
once for such a file; the code increments it once per surviving line, so
the cell ends at 2, not 1. -/
theorem samples_once_per_file_cx :
    ((processLines "server"
        ["0,0,10,10,0,1,1,0".toList, "0,0,10,10,0,1,1,0".toList]
        (get_distribution_dataframe
          ["n1", "n2", "n3", "n4", "n5", "n6", "n7", "n8", "n9", "n10"] 2)).1.cells
          "Samples" "server" = 2) ∧
    ¬((processLines "server"
        ["0,0,10,10,0,1,1,0".toList, "0,0,10,10,0,1,1,0".toList]
        (get_distribution_dataframe
          ["n1", "n2", "n3", "n4", "n5", "n6", "n7", "n8", "n9", "n10"] 2)).1.cells
          "Samples" "server" = 1) :=
  ⟨by decide, by decide⟩

/-! ## C9: the Samples row tracks the column sums -/

/-- Summing a pointwise-bumped map adds the multiplicity of the bumped
name. -/
theorem sum_map_bump (names : List String) (f : String → Nat) (c : String) :
    (names.map (fun nm => f nm + if nm = c then 1 else 0)).sum
      = (names.map f).sum + names.count c := by
  induction names with
  | nil => simp
  | cons a rest ih =>
    simp only [List.map_cons, List.sum_cons, List.count_cons, ih]
    by_cases ha : a = c
    · rw [if_pos ha, if_pos (beq_iff_eq.mpr ha)]
      omega
    · rw [if_neg ha, if_neg (fun hc => ha (beq_iff_eq.mp hc))]
      omega

/-- Processing one annotation file preserves the row axis and the
invariant "the `Samples` cell of every column equals the sum of the
class-name cells of that column". -/
theorem processLines_preserves_samples_sum (names : List String) (dest : String)
    (lines : List (List Char)) (hnd : names.Nodup) (hs : "Samples" ∉ names)
    (hlen : 10 ≤ names.length) :
    ∀ df : DistDF, df.index = "Samples" :: names →
    (∀ b, df.cells "Samples" b = (names.map (fun nm => df.cells nm b)).sum) →
    ((processLines dest lines df).1.index = "Samples" :: names ∧
      ∀ b, (processLines dest lines df).1.cells "Samples" b
        = (names.map (fun nm => (processLines dest lines df).1.cells nm b)).sum) := by
  induction lines with
  | nil => intro df h1 h2; exact ⟨h1, h2⟩
  | cons line rest ih =>
    intro df h1 h2
    cases ho : lineOutcome line with
    | malformed =>
      rw [processLines_cons_not_kept dest rest df (by rw [ho]; rfl)]
      exact ih df h1 h2
    | filtered =>
      rw [processLines_cons_not_kept dest rest df (by rw [ho]; rfl)]
      exact ih df h1 h2
    | kept cls x y w h =>
      have hrange := lineOutcome_kept_range ho
      have htn : cls.toNat - 1 < names.length := by omega
      have hcn : df.index.getD cls.toNat "" = names.getD (cls.toNat - 1) "" := by
        rw [h1]
        obtain ⟨k, hk⟩ : ∃ k, cls.toNat = k + 1 := ⟨cls.toNat - 1, by omega⟩
        simp [hk]
      have hclassmem : names.getD (cls.toNat - 1) "" ∈ names := by
        rw [List.getD_eq_getElem names "" htn]
        exact List.getElem_mem htn
      have hclassne : names.getD (cls.toNat - 1) "" ≠ "Samples" :=
        fun hEq => hs (hEq ▸ hclassmem)
      rw [processLines_cons_kept dest rest df ho]
      dsimp only
      apply ih
      · rw [updateTable_index, h1]
      · intro b
        by_cases hb : b = dest
        · subst hb
          have hmapeq :
              names.map (fun nm => (updateTable df b (.kept cls x y w h)).cells nm b)
                = names.map (fun nm => df.cells nm b
                    + if nm = names.getD (cls.toNat - 1) "" then 1 else 0) := by
            refine List.map_congr_left (fun nm hmem => ?_)
            rw [updateTable_kept_cells, hcn,
              if_neg (fun hq : nm = "Samples" ∧ b = b => hs (hq.1 ▸ hmem))]
            by_cases hq : nm = names.getD (cls.toNat - 1) ""
            · rw [if_pos ⟨hq, rfl⟩, if_pos hq]
            · rw [if_neg (fun hc => hq hc.1), if_neg hq]
          rw [hmapeq, sum_map_bump, List.count_eq_one_of_mem hnd hclassmem,
            updateTable_kept_cells, hcn,
            if_neg (fun hq => hclassne hq.1.symm), if_pos ⟨rfl, rfl⟩, h2]
        · have hmapeq :
              names.map (fun nm => (updateTable df dest (.kept cls x y w h)).cells nm b)
                = names.map (fun nm => df.cells nm b) := by
            refine List.map_congr_left (fun nm hmem => ?_)
            rw [updateTable_kept_cells,
              if_neg (fun hq : nm = df.index.getD cls.toNat "" ∧ b = dest => hb hq.2),
              if_neg (fun hq : nm = "Samples" ∧ b = dest => hb hq.2)]
            omega
          rw [hmapeq, updateTable_kept_cells,
            if_neg (fun hq : ("Samples" : String) = df.index.getD cls.toNat "" ∧ b = dest =>
              hb hq.2),
            if_neg (fun hq : ("Samples" : String) = "Samples" ∧ b = dest => hb hq.2), h2]
          omega

/-- C9: starting from the all-zero table of `get_distribution_dataframe`,
at every point of a subset-processing pass (i.e. after any sequence of
per-file jobs) and for every bucket column, the `Samples` cell equals the
sum of the class-name cells of that column: every surviving line
increments exactly one class-name cell and the `Samples` cell by one
each, and nothing else writes the table. -/
theorem samples_row_equals_column_sum (names : List String) (nclients : Nat)
    (steps : List (String × List (List Char))) (b : String)
    (hnd : names.Nodup) (hs : "Samples" ∉ names) (hlen : 10 ≤ names.length) :
    (processPass steps (get_distribution_dataframe names nclients)).cells "Samples" b
      = (names.map (fun nm =>
          (processPass steps (get_distribution_dataframe names nclients)).cells nm b)).sum := by
  suffices h : ∀ df : DistDF, df.index = "Samples" :: names →
      (∀ b1, df.cells "Samples" b1 = (names.map (fun nm => df.cells nm b1)).sum) →
      ((processPass steps df).index = "Samples" :: names ∧
        ∀ b1, (processPass steps df).cells "Samples" b1
          = (names.map (fun nm => (processPass steps df).cells nm b1)).sum) by
    exact (h (get_distribution_dataframe names nclients) rfl
      (fun b1 => by simp [get_distribution_dataframe])).2 b
  induction steps with
  | nil => intro df h1 h2; exact ⟨h1, h2⟩
  | cons s rest ih =>
    intro df h1 h2
    have hp := processLines_preserves_samples_sum names s.1 s.2 hnd hs hlen df h1 h2
    exact ih (processLines s.1 s.2 df).1 hp.1 hp.2

/-- Witness for C9 at a concrete pass: one server job with one surviving
class-2 line. -/
theorem samples_row_equals_column_sum_witness :
    (processPass [("server", ["0,0,10,10,0,2,1,0".toList])]
        (get_distribution_dataframe
          ["n1", "n2", "n3", "n4", "n5", "n6", "n7", "n8", "n9", "n10"] 1)).cells
        "Samples" "server"
      = ((["n1", "n2", "n3", "n4", "n5", "n6", "n7", "n8", "n9", "n10"].map
          (fun nm => (processPass [("server", ["0,0,10,10,0,2,1,0".toList])]
            (get_distribution_dataframe
              ["n1", "n2", "n3", "n4", "n5", "n6", "n7", "n8", "n9", "n10"] 1)).cells
              nm "server")).sum) :=
  samples_row_equals_column_sum
    ["n1", "n2", "n3", "n4", "n5", "n6", "n7", "n8", "n9", "n10"] 1
    [("server", ["0,0,10,10,0,2,1,0".toList])] "server"
    (by decide) (by decide) (by decide)

/-! ## C10: a skipped file can leave its copied image behind -/

/-- C10: if the image copy succeeds but the paired annotation file is
missing, the per-file exception handler fires (`pbar` is never updated,
the table is untouched, the batch goes on with the remaining files) — yet
the image already copied into the destination bucket stays in place and
no label file is written: the error path does not restore the pre-file
state. -/
theorem copied_image_survives_skip (imgDir annDir dstDir dest : String)
    (df : DistDF) (fs : FS) (imgFile : String) (c : List Char)
    (rest : List String)
    (himg : fs (pjoin imgDir imgFile) = some c)
    (hann : fs (pjoin annDir
      (String.mk (pyReplace ".jpg".toList ".txt".toList imgFile.toList))) = none)
    (hne1 : pjoin annDir (String.mk (pyReplace ".jpg".toList ".txt".toList imgFile.toList))
      ≠ pjoin (pjoin (pjoin dstDir dest) "images") imgFile)
    (hne2 : pjoin (pjoin (pjoin dstDir dest) "labels")
        (String.mk (pyReplace ".jpg".toList ".txt".toList imgFile.toList))
      ≠ pjoin (pjoin (pjoin dstDir dest) "images") imgFile) :
    (processOneFile imgDir annDir dstDir dest df fs imgFile).2.2 = false ∧
    (processOneFile imgDir annDir dstDir dest df fs imgFile).2.1 = df ∧
    (processOneFile imgDir annDir dstDir dest df fs imgFile).1
        (pjoin (pjoin (pjoin dstDir dest) "images") imgFile) = some c ∧
    (processOneFile imgDir annDir dstDir dest df fs imgFile).1
        (pjoin (pjoin (pjoin dstDir dest) "labels")
          (String.mk (pyReplace ".jpg".toList ".txt".toList imgFile.toList)))
      = fs (pjoin (pjoin (pjoin dstDir dest) "labels")
          (String.mk (pyReplace ".jpg".toList ".txt".toList imgFile.toList))) ∧
    processFiles imgDir annDir dstDir dest (imgFile :: rest) fs df
      = processFiles imgDir annDir dstDir dest rest
          (processOneFile imgDir annDir dstDir dest df fs imgFile).1
          (processOneFile imgDir annDir dstDir dest df fs imgFile).2.1 := by
  have hres : processOneFile imgDir annDir dstDir dest df fs imgFile
      = (fsWrite fs (pjoin (pjoin (pjoin dstDir dest) "images") imgFile) c, df, false) := by
    unfold processOneFile
    simp only [himg]
    simp only [fsWrite, if_neg hne1, hann]
  refine ⟨by rw [hres], by rw [hres], ?_, ?_, rfl⟩
  · rw [hres]
    simp [fsWrite]
  · rw [hres]
    simp only [fsWrite, if_neg hne2]

/-- Witness for C10: a concrete one-file file system holding only the
image; after the skipped file, the copied image is present in the
client bucket and no label was written. -/
theorem copied_image_survives_skip_witness :
    (processOneFile "V/images/train" "V/annotations/train" "D" "client1"
        (get_distribution_dataframe ["c1"] 1)
        (fun p => if p = "V/images/train/0001.jpg" then some "IMG".toList else none)
        "0001.jpg").2.2 = false ∧
    (processOneFile "V/images/train" "V/annotations/train" "D" "client1"
        (get_distribution_dataframe ["c1"] 1)
        (fun p => if p = "V/images/train/0001.jpg" then some "IMG".toList else none)
        "0001.jpg").2.1 = get_distribution_dataframe ["c1"] 1 ∧
    (processOneFile "V/images/train" "V/annotations/train" "D" "client1"
        (get_distribution_dataframe ["c1"] 1)
        (fun p => if p = "V/images/train/0001.jpg" then some "IMG".toList else none)
        "0001.jpg").1
        (pjoin (pjoin (pjoin "D" "client1") "images") "0001.jpg") = some "IMG".toList ∧
    (processOneFile "V/images/train" "V/annotations/train" "D" "client1"
        (get_distribution_dataframe ["c1"] 1)
        (fun p => if p = "V/images/train/0001.jpg" then some "IMG".toList else none)
        "0001.jpg").1
        (pjoin (pjoin (pjoin "D" "client1") "labels")
          (String.mk (pyReplace ".jpg".toList ".txt".toList "0001.jpg".toList)))
      = (fun p => if p = "V/images/train/0001.jpg" then some "IMG".toList else none)
          (pjoin (pjoin (pjoin "D" "client1") "labels")
            (String.mk (pyReplace ".jpg".toList ".txt".toList "0001.jpg".toList))) ∧
    processFiles "V/images/train" "V/annotations/train" "D" "client1"
        ["0001.jpg"]
        (fun p => if p = "V/images/train/0001.jpg" then some "IMG".toList else none)
        (get_distribution_dataframe ["c1"] 1)
      = processFiles "V/images/train" "V/annotations/train" "D" "client1" []
          (processOneFile "V/images/train" "V/annotations/train" "D" "client1"
            (get_distribution_dataframe ["c1"] 1)
            (fun p => if p = "V/images/train/0001.jpg" then some "IMG".toList else none)
            "0001.jpg").1
          (processOneFile "V/images/train" "V/annotations/train" "D" "client1"
            (get_distribution_dataframe ["c1"] 1)
            (fun p => if p = "V/images/train/0001.jpg" then some "IMG".toList else none)
            "0001.jpg").2.1 :=
  copied_image_survives_skip "V/images/train" "V/annotations/train" "D" "client1"
    (get_distribution_dataframe ["c1"] 1)
    (fun p => if p = "V/images/train/0001.jpg" then some "IMG".toList else none)
    "0001.jpg" "IMG".toList []
    (by decide) (by decide) (by decide) (by decide)

/-! ## Helper lemmas: swaps, shuffles and slices -/

/-- Counting after a single list write: the written cell loses its old
value and gains the new one. -/
theorem count_set_aux {α : Type} [DecidableEq α] :
    ∀ (l : List α) (i : Nat) (b a : α), i < l.length →
    (l.set i b).count a + (if l.getD i b = a then 1 else 0)
      = l.count a + (if b = a then 1 else 0) := by
  intro l
  induction l with
  | nil => intro i b a h; simp at h
  | cons x xs ih =>
    intro i b a _h
    cases i with
    | zero =>
      simp only [List.set_cons_zero, List.getD_cons_zero, List.count_cons]
      by_cases hx : x = a <;> by_cases hb : b = a <;>
        simp [hx, hb, beq_iff_eq]
    | succ k =>
      simp only [List.set_cons_succ, List.getD_cons_succ, List.count_cons]
      have hrec := ih k b a (by simpa using _h)
      simp only [List.getD_eq_getElem?_getD] at hrec
      by_cases hx : x = a <;> simp [hx, beq_iff_eq] <;> omega

/-- A swap is a permutation. -/
theorem swapIdx_perm {α : Type} (l : List α) (i j : Nat) :
    (swapIdx l i j).Perm l := by
  classical
  unfold swapIdx
  cases hi : l[i]? with
  | none => exact List.Perm.refl l
  | some a =>
    cases hj : l[j]? with
    | none => exact List.Perm.refl l
    | some b =>
      dsimp only
      have hil : i < l.length := by
        by_contra hc
        rw [List.getElem?_eq_none (by omega)] at hi
        cases hi
      have hjl : j < l.length := by
        by_contra hc
        rw [List.getElem?_eq_none (by omega)] at hj
        cases hj
      rw [List.perm_iff_count]
      intro c
      have hgi : l.getD i b = a := by
        rw [List.getD_eq_getElem?_getD, hi]
        rfl
      have h1 := count_set_aux l i b c hil
      rw [hgi] at h1
      have h2 := count_set_aux (l.set i b) j a c (by simpa using hjl)
      by_cases hij : i = j
      · subst hij
        have hab : a = b := by rw [hi] at hj; cases hj; rfl
        have hgj : (l.set i b).getD i a = b := by
          rw [List.getD_eq_getElem?_getD, List.getElem?_set_self (by omega)]
          rfl
        rw [hgj] at h2
        subst hab
        omega
      · have hgj : (l.set i b).getD j a = b := by
          rw [List.getD_eq_getElem?_getD, List.getElem?_set_ne (by omega)]
          rw [hj]
          rfl
        rw [hgj] at h2
        omega

/-- Every successful run of the `random.shuffle` loop permutes the
list. -/
theorem shuffleAux_perm {α : Type} (fuel : Nat) :
    ∀ (i : Nat) (l l1 : List α) (st st1 : MTState),
    shuffleAux fuel i l st = some (l1, st1) → l1.Perm l := by
  intro i
  induction i with
  | zero =>
    intro l l1 st st1 h
    simp only [shuffleAux, Option.some.injEq, Prod.mk.injEq] at h
    rw [← h.1]
  | succ i ih =>
    intro l l1 st st1 h
    simp only [shuffleAux] at h
    cases hr : randbelow fuel (i + 2) st with
    | none => rw [hr] at h; cases h
    | some p =>
      rw [hr] at h
      exact (ih _ _ _ _ h).trans (swapIdx_perm l (i + 1) p.1)

/-- A successful `split_files` run returns a permutation of the caller's
list together with the slice buckets of that permutation. -/
theorem split_files_some {α : Type} {fuel : Nat} {amb : MTState}
    {files files1 : List α} {n : Nat} {buckets : List (String × List α)}
    (h : split_files fuel amb files n = some (files1, buckets)) :
    files1.Perm files ∧
      buckets = (List.range n).map
        (fun i => ("client" ++ toString (i + 1), everyNth n (files1.drop i))) := by
  unfold split_files pyShuffle at h
  cases hsh : shuffleAux fuel (files.length - 1) files (pySeedNat 42) with
  | none => rw [hsh] at h; cases h
  | some p =>
    rw [hsh] at h
    simp only [Option.some.injEq, Prod.mk.injEq] at h
    obtain ⟨h1, h2⟩ := h
    subst h1
    exact ⟨shuffleAux_perm fuel _ _ _ _ _ hsh, h2.symm⟩

/-- Fuel irrelevance for the slice: any fuel at least the list length
computes the slice. -/
theorem everyNthF_fuel {α : Type} (n : Nat) :
    ∀ (f : Nat) (l : List α), l.length ≤ f → everyNthF n f l = everyNth n l := by
  intro f
  induction f using Nat.strong_induction_on with
  | _ f ih =>
    intro l hf
    match f, l with
    | 0, l =>
      have : l = [] := List.eq_nil_of_length_eq_zero (by omega)
      subst this
      rfl
    | g + 1, [] => rfl
    | g + 1, x :: xs =>
      have h1 : everyNthF n g (xs.drop (n - 1)) = everyNth n (xs.drop (n - 1)) := by
        refine ih g (by omega) _ ?_
        simp only [List.length_drop]
        simp at hf
        omega
      have h2 : everyNthF n xs.length (xs.drop (n - 1)) = everyNth n (xs.drop (n - 1)) := by
        rcases Nat.eq_zero_or_pos xs.length with hz | hpos
        · have hxs : xs = [] := List.eq_nil_of_length_eq_zero hz
          subst hxs
          rw [List.drop_nil]
          rfl
        · refine ih xs.length (by simp at hf; omega) _ ?_
          simp only [List.length_drop]
          omega
      show x :: everyNthF n g (xs.drop (n - 1)) = everyNth n (x :: xs)
      rw [h1]
      show _ = everyNthF n (xs.length + 1) (x :: xs)
      show _ = x :: everyNthF n xs.length (xs.drop (n - 1))
      rw [h2]

/-- The slice equation: take the head, skip `n - 1` elements. -/
theorem everyNth_cons {α : Type} (n : Nat) (x : α) (xs : List α) :
    everyNth n (x :: xs) = x :: everyNth n (xs.drop (n - 1)) := by
  show everyNthF n (xs.length + 1) (x :: xs) = _
  show x :: everyNthF n xs.length (xs.drop (n - 1)) = _
  rw [everyNthF_fuel n xs.length (xs.drop (n - 1)) (by simp)]

/-- Length of the slice `l[0::n]`: the ceiling of `length / n`. -/
theorem everyNth_length {α : Type} (n : Nat) (hn : 1 ≤ n) :
    ∀ l : List α, (everyNth n l).length = (l.length + n - 1) / n := by
  suffices h : ∀ (L : Nat) (l : List α), l.length = L →
      (everyNth n l).length = (l.length + n - 1) / n by
    exact fun l => h l.length l rfl
  intro L
  induction L using Nat.strong_induction_on with
  | _ L ih =>
    intro l hL
    cases l with
    | nil =>
      have hred : (everyNth n ([] : List α)).length = 0 := rfl
      rw [hred]
      simp only [List.length_nil, Nat.zero_add]
      exact (Nat.div_eq_of_lt (by omega)).symm
    | cons x xs =>
      rw [everyNth_cons]
      have hlen : (xs.drop (n - 1)).length = xs.length - (n - 1) := by simp
      have hbound : (xs.drop (n - 1)).length < L := by
        simp only [List.length_cons] at hL
        simp only [hlen]
        omega
      have ihd := ih (xs.drop (n - 1)).length hbound (xs.drop (n - 1)) rfl
      simp only [List.length_cons, ihd, hlen]
      rcases le_or_lt (n - 1) xs.length with hc | hc
      · have e1 : xs.length - (n - 1) + n - 1 = xs.length := by omega
        have e2 : xs.length + 1 + n - 1 = xs.length + n := by omega
        rw [e1, e2, Nat.add_div_right _ (by omega)]
      · have e1 : xs.length - (n - 1) = 0 := by omega
        have e2 : xs.length + 1 + n - 1 = xs.length + n := by omega
        rw [e1, e2, Nat.add_div_right _ (by omega),
          Nat.div_eq_of_lt (by omega : 0 + n - 1 < n),
          Nat.div_eq_of_lt (by omega : xs.length < n)]

/-- The `n` Python slices `l[0::n], l[1::n], …, l[n-1::n]` together form a
permutation of `l`. -/
theorem slices_flatten_perm {α : Type} (n : Nat) (hn : 1 ≤ n) :
    ∀ l : List α,
    (((List.range n).map (fun i => everyNth n (l.drop i))).flatten).Perm l := by
  intro l
  induction l with
  | nil =>
    have hz : ∀ i, everyNth n (List.drop i ([] : List α)) = [] := by
      intro i
      rw [List.drop_nil]
      rfl
    simp [hz]
    intro _
    rfl
  | cons x xs ih =>
    obtain ⟨m, rfl⟩ : ∃ m, n = m + 1 := ⟨n - 1, by omega⟩
    rw [List.range_succ_eq_map, List.map_cons, List.map_map]
    have hcomp : ((fun i => everyNth (m + 1) ((x :: xs).drop i)) ∘ Nat.succ)
        = fun i => everyNth (m + 1) (xs.drop i) := by
      funext i
      simp [List.drop_succ_cons]
    rw [hcomp, List.flatten_cons, List.drop_zero, everyNth_cons]
    simp only [Nat.add_sub_cancel, List.cons_append]
    refine List.Perm.cons x ?_
    have ih2 := ih
    rw [List.range_succ, List.map_append, List.flatten_append] at ih2
    simp only [List.map_cons, List.map_nil, List.flatten_cons, List.flatten_nil,
      List.append_nil] at ih2
    exact List.Perm.trans List.perm_append_comm ih2

/-! ## C1: partition completeness -/

/-- C1 (amended): for a duplicate-free input file list and client count
`N ≥ 1`, the buckets of the PartitionAssignment (`split_files` in
training mode, the single `server` bucket in validation mode) are
pairwise disjoint, duplicate-free, and their concatenation is a
permutation of the input list: every input file lands in exactly one
bucket and nothing else appears. -/
theorem partition_complete (fuel : Nat) (amb : MTState)
    (files files1 : List String) (n : Nat) (isTrain : Bool)
    (buckets : List (String × List String))
    (hrun : partitionAssignment fuel amb files n isTrain = some (files1, buckets))
    (hn : 1 ≤ n) (hnd : files.Nodup) :
    ((buckets.map Prod.snd).flatten).Perm files ∧
      (∀ b ∈ buckets.map Prod.snd, b.Nodup) ∧
      (buckets.map Prod.snd).Pairwise List.Disjoint := by
  cases isTrain with
  | false =>
    simp only [partitionAssignment, Bool.false_eq_true, if_false,
      Option.some.injEq, Prod.mk.injEq] at hrun
    obtain ⟨rfl, rfl⟩ := hrun
    refine ⟨?_, ?_, ?_⟩
    · simp
    · intro b hb
      simp at hb
      rw [hb]
      exact hnd
    · simp
  | true =>
    simp only [partitionAssignment, if_true] at hrun
    obtain ⟨hperm, hb⟩ := split_files_some hrun
    subst hb
    have hmm : ((List.range n).map
          (fun i => ("client" ++ toString (i + 1), everyNth n (files1.drop i)))).map
          Prod.snd
        = (List.range n).map (fun i => everyNth n (files1.drop i)) := by
      rw [List.map_map]
      rfl
    rw [hmm]
    have hflat := (slices_flatten_perm n hn files1).trans hperm
    have hndf : (((List.range n).map
        (fun i => everyNth n (files1.drop i))).flatten).Nodup :=
      (hflat.nodup_iff).mpr hnd
    obtain ⟨hbn, hdisj⟩ := List.nodup_flatten.mp hndf
    exact ⟨hflat, hbn, hdisj⟩

/-- Witness for C1 in validation mode: two files go to the single
`server` bucket. -/
theorem partition_complete_witness :
    ((([("server", ["a", "b"])] : List (String × List String)).map Prod.snd).flatten).Perm
        ["a", "b"] ∧
      (∀ b ∈ ([("server", ["a", "b"])] : List (String × List String)).map Prod.snd,
        b.Nodup) ∧
      (([("server", ["a", "b"])] : List (String × List String)).map
        Prod.snd).Pairwise List.Disjoint :=
  partition_complete 50 ⟨0, 0⟩ ["a", "b"] ["a", "b"] 1 false [("server", ["a", "b"])]
    (by decide) (by decide) (by decide)

set_option maxRecDepth 1000000 in
set_option maxHeartbeats 4000000 in
/-- C1 counterexample: the claim as stated quantifies over every input
list and every client count.  (i) With the duplicated input `["a", "a"]`
and 2 clients the two buckets both hold `"a"` and are not disjoint.
(ii) With 0 clients and input `["a"]` the bucket map is empty, so the
union of the buckets misses the input file. -/
theorem partition_complete_cx :
    (split_files 50 ⟨0, 0⟩ ["a", "a"] 2
        = some (["a", "a"], [("client1", ["a"]), ("client2", ["a"])]) ∧
      ¬ (([("client1", ["a"]), ("client2", ["a"])] : List (String × List String)).map
          Prod.snd).Pairwise List.Disjoint) ∧
    (split_files 50 ⟨0, 0⟩ ["a"] 0 = some (["a"], []) ∧
      ¬ ((([] : List (String × List String)).map Prod.snd).flatten).Perm ["a"]) := by
  refine ⟨⟨by decide, ?_⟩, ⟨by decide, ?_⟩⟩
  · intro h
    simp only [List.map_cons, List.map_nil, List.pairwise_cons] at h
    exact h.1 ["a"] (by simp) (show ("a" : String) ∈ ["a"] by simp) (by simp)
  · intro h
    have := h.length_eq
    simp at this

/-! ## C6: bucket sizes are balanced -/

/-- The length of the slice starting at `i < n` is the floor or the
ceiling of `M / n`. -/
theorem slice_size_floor_or_ceil (M n i : Nat) (hn : 1 ≤ n) (hi : i < n) :
    (M - i + n - 1) / n = M / n ∨ (M - i + n - 1) / n = (M + n - 1) / n := by
  have h1 : M / n ≤ (M - i + n - 1) / n := Nat.div_le_div_right (by omega)
  have h2 : (M - i + n - 1) / n ≤ (M + n - 1) / n := Nat.div_le_div_right (by omega)
  have h3 : (M + n - 1) / n ≤ M / n + 1 := by
    have hstep : (M + n - 1) / n ≤ (M + n) / n := Nat.div_le_div_right (by omega)
    rw [Nat.add_div_right M (by omega)] at hstep
    exact hstep
  omega

/-- C6: for `N ≥ 1` clients, `split_files` returns `N` buckets; every
bucket has size `⌊M/N⌋` or `⌈M/N⌉` for input size `M`, so any two bucket
sizes differ by at most one; and the empty input list is not an error: it
yields `N` empty buckets. -/
theorem client_bucket_sizes (fuel : Nat) (amb : MTState)
    (files files1 : List String) (n : Nat)
    (buckets : List (String × List String))
    (hrun : split_files fuel amb files n = some (files1, buckets)) (hn : 1 ≤ n) :
    buckets.length = n ∧
    (∀ b ∈ buckets.map Prod.snd,
      b.length = files.length / n ∨ b.length = (files.length + n - 1) / n) ∧
    (∀ b1 ∈ buckets.map Prod.snd, ∀ b2 ∈ buckets.map Prod.snd,
      b1.length ≤ b2.length + 1) ∧
    (files = [] → ∀ b ∈ buckets.map Prod.snd, b = []) := by
  obtain ⟨hperm, hb⟩ := split_files_some hrun
  subst hb
  have hlen1 : files1.length = files.length := hperm.length_eq
  have hsize : ∀ b ∈ ((List.range n).map
      (fun i => ("client" ++ toString (i + 1), everyNth n (files1.drop i)))).map Prod.snd,
      b.length = files.length / n ∨ b.length = (files.length + n - 1) / n := by
    intro b hbm
    simp only [List.map_map, List.mem_map, List.mem_range, Function.comp] at hbm
    obtain ⟨i, hi, rfl⟩ := hbm
    have : (everyNth n (files1.drop i)).length = (files.length - i + n - 1) / n := by
      rw [everyNth_length n hn, List.length_drop, hlen1]
    rw [this]
    exact slice_size_floor_or_ceil files.length n i hn hi
  refine ⟨by simp, hsize, ?_, ?_⟩
  · intro b1 hb1 b2 hb2
    have hc1 := hsize b1 hb1
    have hc2 := hsize b2 hb2
    have h3 : (files.length + n - 1) / n ≤ files.length / n + 1 := by
      have hstep : (files.length + n - 1) / n ≤ (files.length + n) / n :=
        Nat.div_le_div_right (by omega)
      rw [Nat.add_div_right _ (by omega)] at hstep
      exact hstep
    have h4 : files.length / n ≤ (files.length + n - 1) / n :=
      Nat.div_le_div_right (by omega)
    omega
  · intro hfe b hbm
    subst hfe
    have hf1 : files1 = [] := List.Perm.eq_nil hperm
    subst hf1
    simp only [List.map_map, List.mem_map, List.mem_range, Function.comp] at hbm
    obtain ⟨i, _hi, rfl⟩ := hbm
    rw [List.drop_nil]
    rfl

/-- Witness for C6: one file, one client. -/
theorem client_bucket_sizes_witness :
    (([("client1", ["a"])] : List (String × List String)).length = 1) ∧
    (∀ b ∈ ([("client1", ["a"])] : List (String × List String)).map Prod.snd,
      b.length = (["a"] : List String).length / 1 ∨
        b.length = ((["a"] : List String).length + 1 - 1) / 1) ∧
    (∀ b1 ∈ ([("client1", ["a"])] : List (String × List String)).map Prod.snd,
      ∀ b2 ∈ ([("client1", ["a"])] : List (String × List String)).map Prod.snd,
      b1.length ≤ b2.length + 1) ∧
    ((["a"] : List String) = [] →
      ∀ b ∈ ([("client1", ["a"])] : List (String × List String)).map Prod.snd, b = []) :=
  client_bucket_sizes 50 ⟨0, 0⟩ ["a"] ["a"] 1 [("client1", ["a"])] (by decide) (by decide)

/-! ## C7: determinism of the partitioner -/

/-- C7: `split_files` seeds the generator with the fixed seed 42 before
shuffling, so its result does not depend on the ambient generator state:
two runs with the same file list (same order) and client count produce
the identical PartitionAssignment, including the order inside buckets. -/
theorem split_files_deterministic (fuel : Nat) (amb1 amb2 : MTState)
    (files : List String) (n : Nat) :
    split_files fuel amb1 files n = split_files fuel amb2 files n := rfl

/-! ## C8: split_files is not pure — it shuffles the caller's list -/

/-- C8 (amended): `random.shuffle` mutates the caller's list in place;
after `split_files` returns, the caller's list holds the same elements as
a multiset (a permutation), but not necessarily in the original order,
and the global generator state has been re-seeded and advanced. -/
theorem split_files_in_place_perm (fuel : Nat) (amb : MTState)
    (files files1 : List String) (n : Nat)
    (buckets : List (String × List String))
    (hrun : split_files fuel amb files n = some (files1, buckets)) :
    files1.Perm files :=
  (split_files_some hrun).1

set_option maxRecDepth 1000000 in
set_option maxHeartbeats 4000000 in
/-- Witness for C8 (amended): with seed 42, shuffling `["a", "b", "c"]`
yields `["b", "a", "c"]`, a permutation of the input. -/
theorem split_files_in_place_perm_witness :
    (["b", "a", "c"] : List String).Perm ["a", "b", "c"] :=
  split_files_in_place_perm 50 ⟨0, 0⟩ ["a", "b", "c"] ["b", "a", "c"] 2
    [("client1", ["b", "c"]), ("client2", ["a"])] (by decide)

set_option maxRecDepth 1000000 in
set_option maxHeartbeats 4000000 in
/-- C8 counterexample: after `split_files(files, 2)` on
`["a", "b", "c"]`, the caller's list reads `["b", "a", "c"]` — its order
has changed, so the input list is not left unchanged and the call is not
free of side effects. -/
theorem split_files_mutates_input_cx :
    split_files 50 ⟨0, 0⟩ ["a", "b", "c"] 2
      = some (["b", "a", "c"], [("client1", ["b", "c"]), ("client2", ["a"])]) ∧
    (["b", "a", "c"] : List String) ≠ ["a", "b", "c"] :=
  ⟨by decide, by decide⟩
